/-
Verification of the background sync orchestrator of better-search-console.

Shallow embedding of the TypeScript source:
- src/core/SyncManager.ts   (job registry, state machine, cancellation, chunk planner)
- src/core/Database.ts      (SQLite table, INSERT OR REPLACE batch writer, MAX(date) lookup)
- src/core/DataRetention.ts (retention pruning and preview)

Modelling conventions:
- Dates handled arithmetically by the JavaScript Date object are modelled as
  day numbers (Nat); ISO `YYYY-MM-DD` strings compare lexicographically in
  the same order as their day numbers, so JS string comparisons on such
  dates are modelled as Nat comparisons in the date-arithmetic modules.
- Dates stored in SQLite TEXT columns and compared by SQL (`date < ?`,
  `MAX(date)`) are modelled as Lean Strings under the lexicographic order,
  matching SQLite BINARY collation on ASCII ISO dates.
- SQLite REAL columns (ctr, position) are modelled as Rat; the claims only
  ever store and compare these values, never compute with them.
- SQL three-valued logic for NULL is modelled explicitly: a NULL column
  never satisfies `=`, `IN`, or `NOT IN`, and NULLs are pairwise distinct
  for the purposes of a UNIQUE index.
-/
import Mathlib

namespace BetterSearchConsole

/-- Job states, SyncManager.ts line 15. Terminal: completed, failed, cancelled. -/
inductive SyncJobStatus where
  | queued
  | syncing
  | completed
  | failed
  | cancelled
deriving DecidableEq, Repr

/-- Per-property result states, SyncManager.ts line 19. -/
inductive ResultStatus where
  | completed
  | failed
  | skipped
  | cancelled
deriving DecidableEq, Repr

/-- Pruning summary attached to a property result, SyncManager.ts lines 24-28. -/
structure PrunedInfo where
  rowsDeleted : Nat
  rowsAfter : Nat
  spaceSavedMB : Nat
deriving DecidableEq, Repr

/-- Per-property outcome, SyncManager.ts interface SyncJobResult (lines 17-29). -/
structure SyncJobResult where
  siteUrl : String
  status : ResultStatus
  rowsFetched : Nat
  rowsInserted : Nat
  durationMs : Nat
  error : Option String := none
  pruned : Option PrunedInfo := none
deriving DecidableEq, Repr

/-- Search type filter, SyncManager.ts line 55. -/
inductive SearchType where
  | web
  | discover
  | googleNews
  | image
  | video
deriving DecidableEq, Repr

/-- One per-property sync request, SyncManager.ts lines 50-56.
Dates are day numbers (see the header on date modelling). -/
structure PropertySpec where
  siteUrl : String
  startDate : Option Nat := none
  endDate : Option Nat := none
  dimensions : Option (List String) := none
  searchType : Option SearchType := none
deriving DecidableEq, Repr

/-- The in-memory job record, SyncManager.ts interface SyncJob (lines 46-66). -/
structure SyncJob where
  id : String
  status : SyncJobStatus
  cancelled : Bool
  properties : List PropertySpec
  totalProperties : Nat
  completedProperties : Nat
  currentProperty : Option String
  rowsFetched : Nat
  estimatedTotalRows : Option Nat
  apiCallsMade : Nat
  startedAt : Nat
  results : List SyncJobResult
  error : Option String := none
deriving DecidableEq, Repr

/-- Fresh job record as built by createJob, SyncManager.ts lines 144-159. -/
def createJobRecord (id : String) (properties : List PropertySpec) (now : Nat) : SyncJob :=
  { id := id
    status := .queued
    cancelled := false
    properties := properties
    totalProperties := properties.length
    completedProperties := 0
    currentProperty := none
    rowsFetched := 0
    estimatedTotalRows := none
    apiCallsMade := 0
    startedAt := now
    results := []
    error := none }

/-- Outcome of one syncOneProperty call as observed by the per-property worker
in runJob (SyncManager.ts lines 196-209): either the returned result, or a
thrown error message together with the elapsed time. The network and storage
effects inside syncOneProperty are environment-dependent, so the worker body is
modelled against this outcome. -/
inductive PropOutcome where
  | ok (r : SyncJobResult)
  | err (msg : String) (elapsedMs : Nat)
deriving DecidableEq, Repr

/-- Events that mutate a running job: an external cancelJob call landing on
this job, or one property worker finishing (SyncManager.ts lines 131-140 and
189-214). A trace of a run is a list of these events folded over the job. -/
inductive JobEvent where
  | cancel
  | propFinish (prop : PropertySpec) (outcome : PropOutcome)
deriving DecidableEq, Repr

/-- Body of the per-property worker syncProperty inside runJob,
SyncManager.ts lines 189-214: skip if already cancelled, otherwise append the
property result (a thrown error is converted to a failed result) and bump the
completed counter. Progress counters private to syncOneProperty are summarised
by the result it returns. The job status field is never touched here. -/
def syncPropertyStep (job : SyncJob) (prop : PropertySpec) (outcome : PropOutcome) : SyncJob :=
  if job.cancelled then job
  else
    let job :=
      match outcome with
      | .ok r =>
          { job with results := job.results ++ [r], rowsFetched := job.rowsFetched + r.rowsFetched }
      | .err msg elapsedMs =>
          { job with results := job.results ++
              [({ siteUrl := prop.siteUrl, status := .failed, rowsFetched := 0,
                  rowsInserted := 0, durationMs := elapsedMs, error := some msg,
                  pruned := none } : SyncJobResult)] }
    { job with completedProperties := job.completedProperties + 1, currentProperty := none }

/-- Effect of one event on the job record. The cancel branch is the per-job
effect of cancelJob, SyncManager.ts lines 131-140: a no-op on terminal jobs,
otherwise it sets the cancellation flag and the cancelled status. -/
def jobStep (job : SyncJob) : JobEvent → SyncJob
  | .cancel =>
      if job.status = .completed ∨ job.status = .failed ∨ job.status = .cancelled then job
      else { job with cancelled := true, status := .cancelled }
  | .propFinish prop outcome => syncPropertyStep job prop outcome

/-- Finalisation at the end of runJob, SyncManager.ts lines 218-230: clear the
current property, then settle the terminal status from the cancellation flag
and the per-property results. -/
def finalizeJob (job : SyncJob) : SyncJob :=
  let job := { job with currentProperty := none }
  if job.cancelled then { job with status := .cancelled }
  else
    let anyFailed := job.results.any (fun r => r.status = .failed)
    let allFailed := job.results.length > 0 && job.results.all (fun r => r.status = .failed)
    let job := { job with status := if allFailed then .failed else .completed }
    if anyFailed && !allFailed then
      { job with error := some (toString (job.results.filter (fun r => r.status = .failed)).length
          ++ " of " ++ toString job.totalProperties ++ " properties failed") }
    else job

/-- A whole job execution, SyncManager.ts runJob (lines 184-231): the status is
set to syncing synchronously on entry, then the property workers and any
concurrent cancelJob calls interleave (the event list), then finalisation. -/
def runJobFromEvents (job : SyncJob) (events : List JobEvent) : SyncJob :=
  finalizeJob (events.foldl jobStep { job with status := .syncing })

/-- The job registry owned by SyncManager, SyncManager.ts lines 70-72: a map
from job id to job record plus the insertion-ordered id list. The Map is
modelled as an association list looked up by key. -/
structure SyncManagerState where
  jobs : List (String × SyncJob)
  jobOrder : List String
deriving DecidableEq, Repr

/-- In-place update of one entry of the jobs map (JS Map object mutation). -/
def setJob (jobs : List (String × SyncJob)) (id : String) (j : SyncJob) :
    List (String × SyncJob) :=
  jobs.map (fun p => if p.1 = id then (p.1, j) else p)

/-- Map deletion (this.jobs.delete(oldId), SyncManager.ts line 172). -/
def eraseJob (jobs : List (String × SyncJob)) (id : String) : List (String × SyncJob) :=
  jobs.filter (fun p => p.1 ≠ id)

/-- cancelJob, SyncManager.ts lines 131-140: unknown id or terminal status is
a no-op returning false; otherwise set the cancellation flag and the cancelled
status and return true. -/
def cancelJob (m : SyncManagerState) (jobId : String) : Bool × SyncManagerState :=
  match m.jobs.lookup jobId with
  | none => (false, m)
  | some job =>
      if job.status = .completed ∨ job.status = .failed ∨ job.status = .cancelled then
        (false, m)
      else
        (true, { m with jobs := setJob m.jobs jobId { job with cancelled := true, status := .cancelled } })

/-- Status snapshot returned to callers, SyncManager.ts interface SyncStatus
(lines 31-44). startedAt is kept as the raw timestamp. -/
structure SyncStatus where
  jobId : String
  status : SyncJobStatus
  totalProperties : Nat
  completedProperties : Nat
  currentProperty : Option String
  rowsFetched : Nat
  estimatedTotalRows : Option Nat
  apiCallsMade : Nat
  startedAt : Nat
  elapsedMs : Nat
  results : List SyncJobResult
  error : Option String
deriving DecidableEq, Repr

/-- jobToStatus, SyncManager.ts lines 396-411. -/
def jobToStatus (job : SyncJob) (now : Nat) : SyncStatus :=
  { jobId := job.id
    status := job.status
    totalProperties := job.totalProperties
    completedProperties := job.completedProperties
    currentProperty := job.currentProperty
    rowsFetched := job.rowsFetched
    estimatedTotalRows := job.estimatedTotalRows
    apiCallsMade := job.apiCallsMade
    startedAt := job.startedAt
    elapsedMs := now - job.startedAt
    results := job.results
    error := job.error }

/-- getStatus with a jobId argument, SyncManager.ts lines 107-127: an unknown
id yields a synthetic failed-shaped status, a known id yields jobToStatus. -/
def getStatusById (m : SyncManagerState) (jobId : String) (now : Nat) : SyncStatus :=
  match m.jobs.lookup jobId with
  | none =>
      { jobId := jobId
        status := .failed
        totalProperties := 0
        completedProperties := 0
        currentProperty := none
        rowsFetched := 0
        estimatedTotalRows := none
        apiCallsMade := 0
        startedAt := 0
        elapsedMs := 0
        results := []
        error := some ("Job " ++ jobId ++ " not found. It may have expired from history.") }
  | some job => jobToStatus job now

/-- SyncManager.ts line 68. -/
def MAX_JOB_HISTORY : Nat := 50

/-- Loop body of pruneHistory, SyncManager.ts lines 167-178: while the order
list exceeds the cap, shift the oldest id; delete it when its job is terminal,
otherwise push it back and stop. The recursion walks the order list, so the
returned pair is the surviving jobs map and order list. -/
def pruneHistoryGo (jobs : List (String × SyncJob)) :
    List String → List (String × SyncJob) × List String
  | [] => (jobs, [])
  | oldId :: rest =>
      if MAX_JOB_HISTORY < (oldId :: rest).length then
        match jobs.lookup oldId with
        | some oldJob =>
            if oldJob.status = .completed ∨ oldJob.status = .failed ∨ oldJob.status = .cancelled then
              pruneHistoryGo (eraseJob jobs oldId) rest
            else (jobs, oldId :: rest)
        | none => (jobs, oldId :: rest)
      else (jobs, oldId :: rest)

/-- pruneHistory, SyncManager.ts lines 167-178. -/
def pruneHistory (m : SyncManagerState) : SyncManagerState :=
  let r := pruneHistoryGo m.jobs m.jobOrder
  { jobs := r.1, jobOrder := r.2 }

/-- One stored row of the search_analytics table, Database.ts initializeTables:
date TEXT NOT NULL, nullable dimension columns, integer metrics, REAL metrics
(modelled as Rat, only stored and compared). The AUTOINCREMENT id is the list
position. -/
structure SearchAnalyticsRow where
  date : String
  query : Option String
  page : Option String
  device : Option String
  country : Option String
  searchAppearance : Option String
  clicks : Nat
  impressions : Nat
  ctr : Rat
  position : Rat
deriving DecidableEq, Repr

/-- SQL equality of two nullable TEXT columns as used by a UNIQUE index:
NULL compares unequal to everything, including another NULL (SQLite treats
NULLs in a unique index as pairwise distinct). -/
def sqlColEq : Option String → Option String → Bool
  | some a, some b => a = b
  | _, _ => false

/-- Whether a stored row conflicts with an incoming row on the unique index
idx_sa_unique ON search_analytics(date, query, page, device, country),
Database.ts initializeTables. date is NOT NULL, the other four columns are
nullable and follow SQL NULL semantics. -/
def keyConflict (x r : SearchAnalyticsRow) : Bool :=
  x.date = r.date && sqlColEq x.query r.query && sqlColEq x.page r.page
    && sqlColEq x.device r.device && sqlColEq x.country r.country

/-- INSERT OR REPLACE of one row, Database.ts getInsertStmt: delete every
stored row conflicting on the unique index, then insert the new row with a
fresh rowid (appended at the end). -/
def upsertRow (table : List SearchAnalyticsRow) (r : SearchAnalyticsRow) :
    List SearchAnalyticsRow :=
  table.filter (fun x => !keyConflict x r) ++ [r]

/-- insertSearchAnalyticsBatch, Database.ts lines 472-494: one transaction that
runs the INSERT OR REPLACE statement per row and returns the table after the
batch together with the reported inserted count (the count attempted,
incremented once per row regardless of insert vs replace). -/
def insertSearchAnalyticsBatch (table : List SearchAnalyticsRow)
    (rows : List SearchAnalyticsRow) : List SearchAnalyticsRow × Nat :=
  (rows.foldl upsertRow table, rows.length)

/-- SQLite BINARY collation comparison of two TEXT values (code-point
order), used by SQL for date comparisons; it agrees with the Lean String
order (String.lt_iff). -/
def sqlTextLt (a b : String) : Bool := decide (a.data < b.data)

/-- SQLite BINARY collation non-strict comparison of two TEXT values. -/
def sqlTextLe (a b : String) : Bool := decide (a.data ≤ b.data)

/-- Per-character ASCII lowering of a TEXT value, as performed by SQL LOWER
and by JS toLowerCase on the country codes involved. -/
def sqlLower (s : String) : String := String.mk (s.data.map Char.toLower)

/-- Contents of one property database file, Database.ts. Only the
search_analytics table is relevant to the claims; the schema has no property
column, a whole file belongs to one property (getDbPath maps the site URL to
its own file). -/
structure Database where
  search_analytics : List SearchAnalyticsRow
deriving DecidableEq, Repr

/-- getLastSyncDate, Database.ts lines 452-457: SELECT MAX(date) FROM
search_analytics, NULL on an empty table. The SQL MAX aggregate over the TEXT
column is a fold with string comparison; the siteUrl argument does not appear
in the query. -/
def maxDateStep (acc : Option String) (r : SearchAnalyticsRow) : Option String :=
  match acc with
  | none => some r.date
  | some m => if sqlTextLt m r.date then some r.date else some m

def getLastSyncDate (db : Database) (siteUrl : String) : Option String :=
  db.search_analytics.foldl maxDateStep none

/-- Retention policy, DataRetention.ts lines 16-25. -/
structure RetentionPolicy where
  recentDays : Nat
  targetMinImpressions : Nat
  pruneNonTargetZeroClicks : Bool
  targetCountries : List String
deriving DecidableEq, Repr

/-- Lower-cased target country list, DataRetention.ts line 91. -/
def lowerTargets (p : RetentionPolicy) : List String :=
  p.targetCountries.map sqlLower

/-- SQL predicate LOWER(country) IN (targets): a NULL country yields NULL and
is not selected. -/
def inTargetCountries (targets : List String) : Option String → Bool
  | some c => targets.contains (sqlLower c)
  | none => false

/-- SQL predicate LOWER(country) NOT IN (targets): a NULL country yields NULL
and is not selected. -/
def notInTargetCountries (targets : List String) : Option String → Bool
  | some c => !targets.contains (sqlLower c)
  | none => false

/-- WHERE clause of the step-1 DELETE, DataRetention.ts lines 95-101: old
target-country rows with zero clicks and impressions below the threshold. -/
def targetDeletePred (p : RetentionPolicy) (cutoffDate : String)
    (r : SearchAnalyticsRow) : Bool :=
  sqlTextLt r.date cutoffDate && r.clicks = 0 && r.impressions < p.targetMinImpressions
    && inTargetCountries (lowerTargets p) r.country

/-- WHERE clause of the step-2 DELETE, DataRetention.ts lines 109-114: old
non-target-country rows with zero clicks, regardless of impressions. -/
def nonTargetDeletePred (p : RetentionPolicy) (cutoffDate : String)
    (r : SearchAnalyticsRow) : Bool :=
  sqlTextLt r.date cutoffDate && r.clicks = 0
    && notInTargetCountries (lowerTargets p) r.country

/-- Result of a prune run, DataRetention.ts interface PruneResult, restricted
to the logical table (page counts and timings are physical storage state). -/
structure PruneOutcome where
  rows : List SearchAnalyticsRow
  rowsBefore : Nat
  rowsDeleted : Nat
  rowsAfter : Nat
  vacuumed : Bool
deriving DecidableEq, Repr

/-- Report of a preview run, DataRetention.ts preview return type, without the
float-rounded reductionPct field. -/
structure PreviewReport where
  totalRows : Nat
  wouldDelete : Nat
  wouldKeep : Nat
  targetLowValue : Nat
  nonTargetZeroClick : Nat
  recentProtected : Nat
deriving DecidableEq, Repr

namespace DataRetention

/-- DataRetention.prune, DataRetention.ts lines 57-162, on the logical table.
cutoffDate is the ISO rendering of now minus recentDays (lines 84-86; the
clock is external, so the cutoff is a parameter). Step 1 deletes old low-value
target-country rows; step 2, when enabled, deletes old zero-click non-target
rows from what remains; the run reports the change counts and VACUUMs when
anything was deleted. -/
def prune (rows : List SearchAnalyticsRow) (p : RetentionPolicy)
    (cutoffDate : String) : PruneOutcome :=
  let rowsBefore := rows.length
  let afterTarget := rows.filter (fun r => !targetDeletePred p cutoffDate r)
  let targetDeleted := rowsBefore - afterTarget.length
  let afterNonTarget :=
    if p.pruneNonTargetZeroClicks then
      afterTarget.filter (fun r => !nonTargetDeletePred p cutoffDate r)
    else afterTarget
  let nonTargetDeleted := afterTarget.length - afterNonTarget.length
  let totalDeleted := targetDeleted + nonTargetDeleted
  { rows := afterNonTarget
    rowsBefore := rowsBefore
    rowsDeleted := totalDeleted
    rowsAfter := rowsBefore - totalDeleted
    vacuumed := totalDeleted > 0 }

/-- DataRetention.preview, DataRetention.ts lines 167-229: a readonly
connection running the three SELECT COUNT queries. The first component is the
store after the call (unchanged); the report combines the counts exactly as
lines 212-219 do. -/
def preview (rows : List SearchAnalyticsRow) (p : RetentionPolicy)
    (cutoffDate : String) : List SearchAnalyticsRow × PreviewReport :=
  let totalRows := rows.length
  let targetLowValue := (rows.filter (targetDeletePred p cutoffDate)).length
  let nonTargetZeroClick := (rows.filter (nonTargetDeletePred p cutoffDate)).length
  let recentProtected := (rows.filter (fun r => sqlTextLe cutoffDate r.date)).length
  let wouldDelete := targetLowValue + (if p.pruneNonTargetZeroClicks then nonTargetZeroClick else 0)
  (rows,
    { totalRows := totalRows
      wouldDelete := wouldDelete
      wouldKeep := totalRows - wouldDelete
      targetLowValue := targetLowValue
      nonTargetZeroClick := nonTargetZeroClick
      recentProtected := recentProtected })

end DataRetention

/-- SyncManager.ts line 12. -/
def CHUNK_DAYS : Nat := 90

/-- One date chunk, with inclusive day-number bounds (the from and to fields
of the source object). -/
structure Chunk where
  dFrom : Nat
  dTo : Nat
deriving DecidableEq, Repr

/-- Loop of buildChunks, SyncManager.ts lines 444-460 (the identical private
copy lives in DataSync.ts lines 299-320): starting at the cursor, emit
90-day chunks clipped to the end date, advancing the cursor to the day after
each chunk end. -/
def buildChunksGo (dateTo : Nat) (cursor : Nat) : List Chunk :=
  if h : cursor ≤ dateTo then
    let chunkEnd := cursor + (CHUNK_DAYS - 1)
    let effectiveEnd := if dateTo < chunkEnd then dateTo else chunkEnd
    { dFrom := cursor, dTo := effectiveEnd } :: buildChunksGo dateTo (effectiveEnd + 1)
  else []
termination_by dateTo + 1 - cursor
decreasing_by
  split <;> omega

/-- buildChunks, SyncManager.ts lines 444-460. -/
def buildChunks (dateFrom dateTo : Nat) : List Chunk :=
  buildChunksGo dateTo dateFrom

/-- daysBetween, SyncManager.ts lines 462-466: the signed whole-day difference
between the two dates. -/
def daysBetween (dateFrom dateTo : Nat) : Int :=
  (dateTo : Int) - (dateFrom : Int)

/-- Chunk selection in syncOneProperty, SyncManager.ts lines 292-295: chunk
only when the span exceeds CHUNK_DAYS, otherwise one whole-range chunk. -/
def planChunks (startDate endDate : Nat) : List Chunk :=
  if daysBetween startDate endDate > (CHUNK_DAYS : Int) then
    buildChunks startDate endDate
  else
    [{ dFrom := startDate, dTo := endDate }]

/-- Outcome of date-range resolution at the top of syncOneProperty: either a
resolved fetch start date, or the early skipped result. -/
inductive ResumeDecision where
  | run (startDate : Nat)
  | skipResult (r : SyncJobResult)
deriving DecidableEq, Repr

/-- Date-range resolution, SyncManager.ts lines 249-276: an explicit start
date wins; otherwise resume the day after the stored last-synced date when
that day is not past the end date, returning the skipped result when it is;
with no stored date fall back to the default lookback start. -/
def resolveResume (siteUrl : String) (explicitStart : Option Nat) (endDate : Nat)
    (lastSyncedDate : Option Nat) (fallbackStart : Nat) : ResumeDecision :=
  match explicitStart with
  | some s => .run s
  | none =>
      match lastSyncedDate with
      | some lastDate =>
          let nextDay := lastDate + 1
          if nextDay ≤ endDate then .run nextDay
          else
            .skipResult
              { siteUrl := siteUrl
                status := .skipped
                rowsFetched := 0
                rowsInserted := 0
                durationMs := 0
                error := none
                pruned := none }
      | none => .run fallbackStart

/-- The clipped end of the chunk starting at the cursor: the effectiveEnd
local of the buildChunks loop (SyncManager.ts lines 449-451). -/
def effEnd (dateTo cursor : Nat) : Nat :=
  if dateTo < cursor + (CHUNK_DAYS - 1) then dateTo else cursor + (CHUNK_DAYS - 1)

/-- Whether a row carries a value in every nullable column of the unique
index. Only such rows can conflict with a later copy of themselves. -/
def nonNullKey (r : SearchAnalyticsRow) : Bool :=
  r.query.isSome && r.page.isSome && r.device.isSome && r.country.isSome

/-- Whether a stored row conflicts with no row of an incoming batch. -/
def noBatchConflict (rows : List SearchAnalyticsRow) (x : SearchAnalyticsRow) : Bool :=
  rows.all (fun r => !keyConflict x r)

/-- Concrete stored row used by witnesses. -/
def exRowA : SearchAnalyticsRow :=
  { date := "2024-02-01", query := some "lean theorem prover", page := some "/docs",
    device := some "DESKTOP", country := some "usa", searchAppearance := none,
    clicks := 3, impressions := 10, ctr := 0, position := 1 }

/-- Concrete stored row two days later, used by witnesses. -/
def exRowB : SearchAnalyticsRow :=
  { exRowA with date := "2024-02-03", clicks := 1 }

/-- Concrete property database used by witnesses. -/
def exDb : Database :=
  { search_analytics := [exRowA, exRowB] }

/-- A record with every nullable key dimension NULL, as produced by
transformRow when the requested dimension list contains only date
(SyncManager.ts lines 416-442). -/
def exNullKeyRow : SearchAnalyticsRow :=
  { date := "2024-02-01", query := none, page := none, device := none,
    country := none, searchAppearance := none,
    clicks := 5, impressions := 20, ctr := 0, position := 2 }

/-- An old zero-click low-impression target-country row, used by witnesses. -/
def exPrunableRow : SearchAnalyticsRow :=
  { exRowA with date := "2019-06-15", clicks := 0, impressions := 2 }

/-- Concrete retention policy used by witnesses. -/
def exPolicy : RetentionPolicy :=
  { recentDays := 90, targetMinImpressions := 5,
    pruneNonTargetZeroClicks := true, targetCountries := ["usa", "gbr"] }

/-- A concrete registry with one active job, used by witnesses. -/
def exMgr : SyncManagerState :=
  { jobs := [("j1", { createJobRecord "j1" [] 0 with status := .syncing })]
    jobOrder := ["j1"] }

/-- Ids of 51 terminal jobs, used by the history-cap counterexample. -/
def exTerminalIds : List String :=
  (List.range 51).map (fun i => Nat.repr i)

/-- A registry holding 52 jobs whose oldest job is still active while the 51
newer jobs are all terminal, used by the history-cap counterexample. -/
def exBlockedMgr : SyncManagerState :=
  { jobs := ("live", { createJobRecord "live" [] 0 with status := .syncing }) ::
      exTerminalIds.map (fun id => (id, { createJobRecord id [] 0 with status := .completed }))
    jobOrder := "live" :: exTerminalIds }

lemma buildChunksGo_nil (dateTo cursor : Nat) (h : ¬cursor ≤ dateTo) :
    buildChunksGo dateTo cursor = [] := by
  rw [buildChunksGo.eq_def]
  simp [h]

lemma buildChunksGo_cons (dateTo cursor : Nat) (h : cursor ≤ dateTo) :
    buildChunksGo dateTo cursor =
      { dFrom := cursor, dTo := effEnd dateTo cursor } ::
        buildChunksGo dateTo (effEnd dateTo cursor + 1) := by
  rw [buildChunksGo.eq_def]
  simp [h, effEnd]

lemma effEnd_ge (dateTo cursor : Nat) (h : cursor ≤ dateTo) : cursor ≤ effEnd dateTo cursor := by
  unfold effEnd; split <;> omega

lemma effEnd_le (dateTo cursor : Nat) : effEnd dateTo cursor ≤ dateTo ∨ dateTo < cursor := by
  unfold effEnd; split <;> omega

/-- Induction along the cursor walk of the buildChunks loop. -/
lemma buildChunksGo_induction (dateTo : Nat) (motive : Nat → Prop)
    (base : ∀ cursor, ¬cursor ≤ dateTo → motive cursor)
    (step : ∀ cursor, cursor ≤ dateTo → motive (effEnd dateTo cursor + 1) → motive cursor) :
    ∀ cursor, motive cursor := by
  have key : ∀ n cursor, dateTo + 1 - cursor ≤ n → motive cursor := by
    intro n
    induction n with
    | zero => intro c hc; exact base c (by omega)
    | succ n ihn =>
      intro c hc
      by_cases h : c ≤ dateTo
      · refine step c h (ihn _ ?_)
        have := effEnd_ge dateTo c h
        omega
      · exact base c h
  intro cursor
  exact key (dateTo + 1 - cursor) cursor (Nat.le_refl _)

lemma buildChunksGo_mem_bounds (dateTo : Nat) :
    ∀ cursor, ∀ c ∈ buildChunksGo dateTo cursor,
      cursor ≤ c.dFrom ∧ c.dFrom ≤ c.dTo ∧ c.dTo ≤ dateTo := by
  refine buildChunksGo_induction dateTo _ ?_ ?_
  · intro cursor h c hc
    rw [buildChunksGo_nil dateTo cursor h] at hc
    exact absurd hc (List.not_mem_nil c)
  · intro cursor h ih c hc
    rw [buildChunksGo_cons dateTo cursor h] at hc
    have hle := (effEnd_le dateTo cursor).resolve_right (by omega)
    rcases List.mem_cons.mp hc with rfl | hc
    · exact ⟨Nat.le_refl _, effEnd_ge dateTo cursor h, hle⟩
    · obtain ⟨h1, h2, h3⟩ := ih c hc
      have := effEnd_ge dateTo cursor h
      exact ⟨by omega, h2, h3⟩

lemma buildChunksGo_cover (dateTo : Nat) :
    ∀ cursor, ∀ d, (∃ c ∈ buildChunksGo dateTo cursor, c.dFrom ≤ d ∧ d ≤ c.dTo) ↔
      (cursor ≤ d ∧ d ≤ dateTo) := by
  refine buildChunksGo_induction dateTo _ ?_ ?_
  · intro cursor h d
    rw [buildChunksGo_nil dateTo cursor h]
    simp only [List.not_mem_nil, false_and, exists_false, exists_const, false_iff]
    omega
  · intro cursor h ih d
    rw [buildChunksGo_cons dateTo cursor h]
    have hge := effEnd_ge dateTo cursor h
    have hle := (effEnd_le dateTo cursor).resolve_right (by omega)
    constructor
    · rintro ⟨c, hc, hc1, hc2⟩
      rcases List.mem_cons.mp hc with rfl | hc
      · simp only [] at hc1 hc2
        omega
      · have := (ih d).mp ⟨c, hc, hc1, hc2⟩
        omega
    · rintro ⟨hd1, hd2⟩
      by_cases hsplit : d ≤ effEnd dateTo cursor
      · exact ⟨_, List.mem_cons_self _ _, hd1, hsplit⟩
      · obtain ⟨c, hc, hcc⟩ := (ih d).mpr ⟨by omega, hd2⟩
        exact ⟨c, List.mem_cons_of_mem _ hc, hcc⟩

lemma buildChunksGo_chain (dateTo : Nat) :
    ∀ cursor, List.Chain' (fun a b => b.dFrom = a.dTo + 1) (buildChunksGo dateTo cursor) := by
  refine buildChunksGo_induction dateTo _ ?_ ?_
  · intro cursor h
    rw [buildChunksGo_nil dateTo cursor h]
    exact List.chain'_nil
  · intro cursor h ih
    rw [buildChunksGo_cons dateTo cursor h]
    refine List.chain'_cons'.mpr ⟨?_, ih⟩
    intro y hy
    by_cases h2 : effEnd dateTo cursor + 1 ≤ dateTo
    · rw [buildChunksGo_cons dateTo _ h2] at hy
      simp only [List.head?_cons, Option.mem_def, Option.some.injEq] at hy
      subst hy
      rfl
    · rw [buildChunksGo_nil dateTo _ h2] at hy
      simp at hy

lemma buildChunksGo_pairwise (dateTo : Nat) :
    ∀ cursor, List.Pairwise (fun a b => a.dTo < b.dFrom) (buildChunksGo dateTo cursor) := by
  refine buildChunksGo_induction dateTo _ ?_ ?_
  · intro cursor h
    rw [buildChunksGo_nil dateTo cursor h]
    exact List.Pairwise.nil
  · intro cursor h ih
    rw [buildChunksGo_cons dateTo cursor h]
    refine List.pairwise_cons.mpr ⟨?_, ih⟩
    intro c hc
    have := (buildChunksGo_mem_bounds dateTo _ c hc).1
    simp only []
    omega

lemma buildChunksGo_last (dateTo : Nat) :
    ∀ cursor, cursor ≤ dateTo →
      ((buildChunksGo dateTo cursor).getLast?).map Chunk.dTo = some dateTo := by
  refine buildChunksGo_induction dateTo _ ?_ ?_
  · intro cursor h hc
    exact absurd hc h
  · intro cursor h ih _
    rw [buildChunksGo_cons dateTo cursor h]
    by_cases h2 : effEnd dateTo cursor + 1 ≤ dateTo
    · rw [buildChunksGo_cons dateTo _ h2, List.getLast?_cons_cons,
        ← buildChunksGo_cons dateTo _ h2]
      exact ih h2
    · rw [buildChunksGo_nil dateTo _ h2]
      have h3 := (effEnd_le dateTo cursor).resolve_right (by omega)
      have h4 : effEnd dateTo cursor = dateTo := by omega
      simp [h4]

lemma buildChunksGo_length (dateTo : Nat) :
    ∀ cursor, (buildChunksGo dateTo cursor).length
      = (dateTo + 1 - cursor + (CHUNK_DAYS - 1)) / CHUNK_DAYS := by
  refine buildChunksGo_induction dateTo _ ?_ ?_
  · intro cursor h
    rw [buildChunksGo_nil dateTo cursor h]
    have h0 : dateTo + 1 - cursor = 0 := by omega
    rw [h0]
    simp [CHUNK_DAYS]
  · intro cursor h ih
    rw [buildChunksGo_cons dateTo cursor h]
    simp only [List.length_cons, ih]
    by_cases h2 : dateTo < cursor + (CHUNK_DAYS - 1)
    · have he : effEnd dateTo cursor = dateTo := by unfold effEnd; simp [h2]
      rw [he]
      have h3 : dateTo + 1 - (dateTo + 1) = 0 := by omega
      rw [h3]
      have h4 : dateTo + 1 - cursor + (CHUNK_DAYS - 1) < 2 * CHUNK_DAYS := by
        simp only [CHUNK_DAYS] at h2 ⊢; omega
      have h5 : 1 * CHUNK_DAYS ≤ dateTo + 1 - cursor + (CHUNK_DAYS - 1) := by
        simp only [CHUNK_DAYS] at h2 ⊢; omega
      rw [Nat.div_eq_of_lt_le h5 (by simpa using h4)]
      simp [CHUNK_DAYS]
    · have he : effEnd dateTo cursor = cursor + (CHUNK_DAYS - 1) := by unfold effEnd; simp [h2]
      rw [he]
      have h3 : dateTo + 1 - cursor + (CHUNK_DAYS - 1)
          = (dateTo + 1 - (cursor + (CHUNK_DAYS - 1) + 1) + (CHUNK_DAYS - 1)) + CHUNK_DAYS := by
        simp only [CHUNK_DAYS] at h2 ⊢; omega
      rw [h3, Nat.add_div_right _ (by simp [CHUNK_DAYS])]

/-- C4: for every pair of dates with from at most to, the chunk planner
returns a list of chunks that is contiguous (each chunk begins the day after
the previous chunk ends), non-overlapping, whose union is exactly the
inclusive range between from and to with the final chunk clipped to the end
date, and whose length is the day count of the range divided by the 90-day
chunk width rounded up. -/
theorem c4_chunk_planner (dateFrom dateTo : Nat) (h : dateFrom ≤ dateTo) :
    List.Chain' (fun a b => b.dFrom = a.dTo + 1) (buildChunks dateFrom dateTo) ∧
    List.Pairwise (fun a b => a.dTo < b.dFrom) (buildChunks dateFrom dateTo) ∧
    (∀ d, (∃ c ∈ buildChunks dateFrom dateTo, c.dFrom ≤ d ∧ d ≤ c.dTo) ↔
      (dateFrom ≤ d ∧ d ≤ dateTo)) ∧
    ((buildChunks dateFrom dateTo).getLast?).map Chunk.dTo = some dateTo ∧
    (buildChunks dateFrom dateTo).length
      = (dateTo + 1 - dateFrom + (CHUNK_DAYS - 1)) / CHUNK_DAYS := by
  refine ⟨buildChunksGo_chain dateTo dateFrom, buildChunksGo_pairwise dateTo dateFrom,
    buildChunksGo_cover dateTo dateFrom, buildChunksGo_last dateTo dateFrom h,
    buildChunksGo_length dateTo dateFrom⟩

/-- Witness for C4 at a concrete 181-day range: some chunk covers day 100 and
the chunk count is the rounded-up day count. -/
theorem c4_chunk_planner_witness :
    0 ≤ (180 : Nat) ∧
    (∃ c ∈ buildChunks 0 180, c.dFrom ≤ 100 ∧ 100 ≤ c.dTo) ∧
    (buildChunks 0 180).length = (180 + 1 - 0 + (CHUNK_DAYS - 1)) / CHUNK_DAYS := by
  have h := c4_chunk_planner 0 180 (by omega)
  exact ⟨by omega, (h.2.2.1 100).mpr (by omega), h.2.2.2.2⟩

lemma finalizeJob_results (job : SyncJob) : (finalizeJob job).results = job.results := by
  simp only [finalizeJob]
  split
  · rfl
  · split <;> rfl

lemma finalizeJob_cancelled_status (job : SyncJob) (h : job.cancelled = true) :
    (finalizeJob job).status = .cancelled := by
  unfold finalizeJob
  simp [h]

lemma finalizeJob_settled_status (job : SyncJob) (h : job.cancelled = false) :
    (finalizeJob job).status =
      (if job.results.length > 0 && job.results.all (fun r => r.status = .failed)
       then SyncJobStatus.failed else SyncJobStatus.completed) := by
  unfold finalizeJob
  simp only [h, Bool.false_eq_true, if_false]
  split <;> rfl

lemma finalizeJob_failed_iff (job : SyncJob) (h : job.cancelled = false) :
    (finalizeJob job).status = .failed ↔
      (job.results ≠ [] ∧ ∀ r ∈ job.results, r.status = .failed) := by
  rw [finalizeJob_settled_status job h]
  constructor
  · intro hs
    by_cases hc : job.results.length > 0 && job.results.all (fun r => r.status = .failed)
    · rw [if_pos hc] at hs
      obtain ⟨h1, h2⟩ := Bool.and_eq_true .. |>.mp hc
      refine ⟨?_, ?_⟩
      · intro hnil
        rw [hnil] at h1
        simp at h1
      · intro r hr
        have := List.all_eq_true.mp h2 r hr
        simpa using this
    · rw [if_neg hc] at hs
      exact absurd hs (by simp)
  · rintro ⟨h1, h2⟩
    rw [if_pos ?_]
    refine Bool.and_eq_true .. |>.mpr ⟨?_, ?_⟩
    · simpa using List.length_pos.mpr h1
    · exact List.all_eq_true.mpr (fun r hr => by simpa using h2 r hr)

lemma finalizeJob_skipped_member (job : SyncJob) (r : SyncJobResult)
    (hc : job.cancelled = false) (hr : r ∈ job.results) (hs : r.status ≠ .failed) :
    (finalizeJob job).status = .completed := by
  rw [finalizeJob_settled_status job hc, if_neg ?_]
  intro hall
  obtain ⟨-, h2⟩ := Bool.and_eq_true .. |>.mp hall
  have := List.all_eq_true.mp h2 r hr
  simp only [decide_eq_true_eq] at this
  exact hs this

lemma planChunks_cover (s e : Nat) (h : s ≤ e) :
    ∀ d, (∃ c ∈ planChunks s e, c.dFrom ≤ d ∧ d ≤ c.dTo) ↔ (s ≤ d ∧ d ≤ e) := by
  intro d
  unfold planChunks
  split
  · exact buildChunksGo_cover e s d
  · simp [List.mem_singleton]

/-- C2: for a property synced with no explicit start date whose store holds a
last-synced date D, the resolved fetch range is exactly the day after D up to
the end date when that day is not past the end; otherwise the property result
is skipped with zero rows fetched and inserted, and such a result never makes
the job count as failed. -/
theorem c2_resume_from_last_synced (siteUrl : String) (endDate D fallback : Nat) :
    (D + 1 ≤ endDate →
      resolveResume siteUrl none endDate (some D) fallback = .run (D + 1) ∧
      ∀ d, (∃ c ∈ planChunks (D + 1) endDate, c.dFrom ≤ d ∧ d ≤ c.dTo) ↔
        (D + 1 ≤ d ∧ d ≤ endDate)) ∧
    (endDate < D + 1 →
      resolveResume siteUrl none endDate (some D) fallback =
        .skipResult { siteUrl := siteUrl, status := .skipped, rowsFetched := 0,
                      rowsInserted := 0, durationMs := 0, error := none, pruned := none } ∧
      ∀ (job : SyncJob), job.cancelled = false →
        ({ siteUrl := siteUrl, status := .skipped, rowsFetched := 0,
           rowsInserted := 0, durationMs := 0, error := none,
           pruned := none } : SyncJobResult) ∈ job.results →
        (finalizeJob job).status = .completed) := by
  constructor
  · intro h
    refine ⟨?_, planChunks_cover (D + 1) endDate h⟩
    unfold resolveResume
    simp [h]
  · intro h
    constructor
    · unfold resolveResume
      simp [Nat.not_le.mpr h]
    · intro job hc hr
      exact finalizeJob_skipped_member job _ hc hr (by simp)

/-- Witness for C2: with last-synced day 4 and end day 10 the resolved range
is day 5 through day 10, and day 7 is covered by the planned chunks; with end
day 3 the decision is the skipped zero-row result. -/
theorem c2_resume_witness :
    resolveResume "https://example.com/" none 10 (some 4) 0 = .run 5 ∧
    (∃ c ∈ planChunks 5 10, c.dFrom ≤ 7 ∧ 7 ≤ c.dTo) ∧
    resolveResume "https://example.com/" none 3 (some 4) 0 =
      .skipResult { siteUrl := "https://example.com/", status := .skipped, rowsFetched := 0,
                    rowsInserted := 0, durationMs := 0, error := none, pruned := none } := by
  obtain ⟨hrun, hcov⟩ := (c2_resume_from_last_synced "https://example.com/" 10 4 0).1 (by omega)
  obtain ⟨hskip, -⟩ := (c2_resume_from_last_synced "https://example.com/" 3 4 0).2 (by omega)
  exact ⟨hrun, (hcov 7).mpr (by omega), hskip⟩

lemma syncPropertyStep_preserves (j : SyncJob) (p : PropertySpec) (o : PropOutcome) :
    (syncPropertyStep j p o).status = j.status ∧ (syncPropertyStep j p o).cancelled = j.cancelled := by
  simp only [syncPropertyStep]
  split
  · exact ⟨rfl, rfl⟩
  · cases o <;> exact ⟨rfl, rfl⟩

lemma jobStep_preserves_cancelled (j : SyncJob) (e : JobEvent)
    (h1 : j.cancelled = true) (h2 : j.status = .cancelled) :
    (jobStep j e).cancelled = true ∧ (jobStep j e).status = .cancelled := by
  cases e with
  | cancel =>
      simp only [jobStep]
      rw [if_pos (by simp [h2])]
      exact ⟨h1, h2⟩
  | propFinish p o =>
      obtain ⟨hs, hc⟩ := syncPropertyStep_preserves j p o
      exact ⟨by simpa [jobStep, hc] using h1, by simpa [jobStep, hs] using h2⟩

lemma foldl_jobStep_cancelled (events : List JobEvent) :
    ∀ j : SyncJob, j.cancelled = true → j.status = .cancelled →
      (events.foldl jobStep j).cancelled = true ∧
      (events.foldl jobStep j).status = .cancelled := by
  induction events with
  | nil => intro j h1 h2; exact ⟨h1, h2⟩
  | cons e es ih =>
      intro j h1 h2
      obtain ⟨h1', h2'⟩ := jobStep_preserves_cancelled j e h1 h2
      exact ih (jobStep j e) h1' h2'

lemma foldl_jobStep_no_cancel (events : List JobEvent) :
    ∀ j : SyncJob, JobEvent.cancel ∉ events → j.cancelled = false → j.status = .syncing →
      (events.foldl jobStep j).cancelled = false ∧
      (events.foldl jobStep j).status = .syncing := by
  induction events with
  | nil => intro j _ h1 h2; exact ⟨h1, h2⟩
  | cons e es ih =>
      intro j hmem h1 h2
      cases e with
      | cancel => exact absurd (List.mem_cons_self _ _) hmem
      | propFinish p o =>
          obtain ⟨hs, hc⟩ := syncPropertyStep_preserves j p o
          exact ih (jobStep j (.propFinish p o))
            (fun hx => hmem (List.mem_cons_of_mem _ hx))
            (by simpa [jobStep, hc] using h1) (by simpa [jobStep, hs] using h2)

lemma foldl_jobStep_cancel_mem (events : List JobEvent) :
    ∀ j : SyncJob, JobEvent.cancel ∈ events → j.cancelled = false → j.status = .syncing →
      (events.foldl jobStep j).cancelled = true ∧
      (events.foldl jobStep j).status = .cancelled := by
  induction events with
  | nil => intro j hmem; exact absurd hmem (List.not_mem_nil _)
  | cons e es ih =>
      intro j hmem h1 h2
      cases e with
      | cancel =>
          have hstep : (jobStep j .cancel).cancelled = true ∧ (jobStep j .cancel).status = .cancelled := by
            simp only [jobStep]
            rw [if_neg (by simp [h2])]
            exact ⟨rfl, rfl⟩
          exact foldl_jobStep_cancelled es _ hstep.1 hstep.2
      | propFinish p o =>
          obtain ⟨hs, hc⟩ := syncPropertyStep_preserves j p o
          have hmem' : JobEvent.cancel ∈ es := by
            rcases List.mem_cons.mp hmem with h | h
            · exact absurd h.symm (by simp)
            · exact h
          exact ih (jobStep j (.propFinish p o)) hmem'
            (by simpa [jobStep, hc] using h1) (by simpa [jobStep, hs] using h2)

lemma jobStep_results_cancel (j : SyncJob) : (jobStep j .cancel).results = j.results := by
  simp only [jobStep]
  split <;> rfl

lemma foldl_jobStep_results_cancelOnly (events : List JobEvent) :
    ∀ j : SyncJob, (∀ e ∈ events, e = JobEvent.cancel) →
      (events.foldl jobStep j).results = j.results := by
  induction events with
  | nil => intro j _; rfl
  | cons e es ih =>
      intro j hall
      have he : e = JobEvent.cancel := hall e (List.mem_cons_self _ _)
      subst he
      rw [List.foldl_cons, ih (jobStep j .cancel) (fun x hx => hall x (List.mem_cons_of_mem _ hx)),
          jobStep_results_cancel]

/-- C1: for every job trace, the final status is cancelled exactly when the
cancellation flag was set at some point during execution (a cancel event
occurred); otherwise it is failed exactly when the results list is non-empty
and every per-property result failed, and completed in every other case; in
particular a job with zero properties (whose trace carries no property
completions) finishes completed with an empty results list. -/
lemma runJob_trace_spec (events : List JobEvent) (j0 : SyncJob)
    (h1 : j0.cancelled = false) (h2 : j0.status = .syncing) (h3 : j0.results = []) :
    ((finalizeJob (events.foldl jobStep j0)).status = .cancelled ↔
      JobEvent.cancel ∈ events) ∧
    (JobEvent.cancel ∉ events →
      ((finalizeJob (events.foldl jobStep j0)).status = .failed ↔
        ((finalizeJob (events.foldl jobStep j0)).results ≠ [] ∧
          ∀ r ∈ (finalizeJob (events.foldl jobStep j0)).results, r.status = .failed))) ∧
    (JobEvent.cancel ∉ events →
      (finalizeJob (events.foldl jobStep j0)).status = .failed ∨
      (finalizeJob (events.foldl jobStep j0)).status = .completed) ∧
    ((∀ e ∈ events, e = JobEvent.cancel) →
      (finalizeJob (events.foldl jobStep j0)).results = []) ∧
    (events = [] →
      (finalizeJob (events.foldl jobStep j0)).status = .completed ∧
      (finalizeJob (events.foldl jobStep j0)).results = []) := by
  refine ⟨?_, ?_, ?_, ?_, ?_⟩
  · constructor
    · intro hs
      by_contra hmem
      obtain ⟨hc, -⟩ := foldl_jobStep_no_cancel events _ hmem h1 h2
      rw [finalizeJob_settled_status _ hc] at hs
      revert hs
      split <;> simp
    · intro hmem
      obtain ⟨hc, -⟩ := foldl_jobStep_cancel_mem events _ hmem h1 h2
      exact finalizeJob_cancelled_status _ hc
  · intro hmem
    obtain ⟨hc, -⟩ := foldl_jobStep_no_cancel events _ hmem h1 h2
    rw [finalizeJob_failed_iff _ hc, finalizeJob_results]
  · intro hmem
    obtain ⟨hc, -⟩ := foldl_jobStep_no_cancel events _ hmem h1 h2
    rw [finalizeJob_settled_status _ hc]
    split
    · exact Or.inl rfl
    · exact Or.inr rfl
  · intro hall
    rw [finalizeJob_results, foldl_jobStep_results_cancelOnly events _ hall, h3]
  · rintro rfl
    refine ⟨?_, ?_⟩
    · rw [List.foldl_nil, finalizeJob_settled_status _ h1, h3]
      rfl
    · rw [List.foldl_nil, finalizeJob_results, h3]

theorem c1_terminal_status (id : String) (props : List PropertySpec) (now : Nat)
    (events : List JobEvent) :
    ((runJobFromEvents (createJobRecord id props now) events).status = .cancelled ↔
      JobEvent.cancel ∈ events) ∧
    (JobEvent.cancel ∉ events →
      ((runJobFromEvents (createJobRecord id props now) events).status = .failed ↔
        ((runJobFromEvents (createJobRecord id props now) events).results ≠ [] ∧
          ∀ r ∈ (runJobFromEvents (createJobRecord id props now) events).results,
            r.status = .failed))) ∧
    (JobEvent.cancel ∉ events →
      (runJobFromEvents (createJobRecord id props now) events).status = .failed ∨
      (runJobFromEvents (createJobRecord id props now) events).status = .completed) ∧
    ((∀ e ∈ events, e = JobEvent.cancel) →
      (runJobFromEvents (createJobRecord id props now) events).results = []) ∧
    (events = [] →
      (runJobFromEvents (createJobRecord id props now) events).status = .completed ∧
      (runJobFromEvents (createJobRecord id props now) events).results = []) :=
  runJob_trace_spec events
    { createJobRecord id props now with status := .syncing } rfl rfl rfl

/-- Witness for C1: a zero-property job with an empty trace finishes
completed with an empty results list. -/
theorem c1_terminal_status_witness :
    (runJobFromEvents (createJobRecord "j1" [] 0) []).status = .completed ∧
    (runJobFromEvents (createJobRecord "j1" [] 0) []).results = [] :=
  (c1_terminal_status "j1" [] 0 []).2.2.2.2 rfl

lemma lookup_setJob_of_mem (jobs : List (String × SyncJob)) (id : String) (j j0 : SyncJob)
    (h : jobs.lookup id = some j0) : (setJob jobs id j).lookup id = some j := by
  induction jobs with
  | nil => simp at h
  | cons kv rest ih =>
      obtain ⟨k, v⟩ := kv
      by_cases hk : id = k
      · subst hk
        simp [setJob, List.lookup_cons]
      · have hne : ((k, v) : String × SyncJob).1 ≠ id := fun hx => hk hx.symm
        have hbeq : (id == k) = false := beq_false_of_ne hk
        simp only [setJob, List.map_cons, if_neg hne]
        rw [List.lookup_cons] at h ⊢
        simp only [hbeq] at h ⊢
        exact ih h

lemma cancelJob_true_spec (m : SyncManagerState) (jobId : String)
    (h : (cancelJob m jobId).1 = true) :
    ∃ j, m.jobs.lookup jobId = some j ∧
      ¬(j.status = .completed ∨ j.status = .failed ∨ j.status = .cancelled) ∧
      (cancelJob m jobId).2.jobs.lookup jobId
        = some { j with cancelled := true, status := .cancelled } ∧
      (cancelJob m jobId).2.jobOrder = m.jobOrder := by
  unfold cancelJob at h ⊢
  revert h
  split
  · intro h; simp at h
  · rename_i j hj
    split
    · intro h; simp at h
    · rename_i hterm
      intro _h
      exact ⟨j, hj, hterm, lookup_setJob_of_mem m.jobs jobId _ j hj, rfl⟩

lemma cancelJob_accepts (m : SyncManagerState) (jobId : String) (j : SyncJob)
    (hj : m.jobs.lookup jobId = some j)
    (hterm : ¬(j.status = .completed ∨ j.status = .failed ∨ j.status = .cancelled)) :
    (cancelJob m jobId).1 = true := by
  unfold cancelJob
  simp only [hj]
  rw [if_neg hterm]

lemma cancelJob_false_unchanged (m : SyncManagerState) (jobId : String)
    (h : (cancelJob m jobId).1 = false) : (cancelJob m jobId).2 = m := by
  unfold cancelJob at h ⊢
  revert h
  split
  · intro _h; rfl
  · split
    · intro _h; rfl
    · intro h; simp at h

/-- C9: cancelJob returns true and sets the cancellation flag exactly when the
job exists in the registry with a non-terminal status; an unknown id or a
terminal job is a no-op returning false that leaves the registry unchanged. -/
theorem c9_cancel_job (m : SyncManagerState) (jobId : String) :
    ((cancelJob m jobId).1 = true ↔
      ∃ j, m.jobs.lookup jobId = some j ∧
        ¬(j.status = .completed ∨ j.status = .failed ∨ j.status = .cancelled)) ∧
    ((cancelJob m jobId).1 = true →
      ∃ j, m.jobs.lookup jobId = some j ∧
        (cancelJob m jobId).2.jobs.lookup jobId
          = some { j with cancelled := true, status := .cancelled } ∧
        (cancelJob m jobId).2.jobOrder = m.jobOrder) ∧
    ((cancelJob m jobId).1 = false → (cancelJob m jobId).2 = m) := by
  refine ⟨⟨?_, ?_⟩, ?_, ?_⟩
  · intro ht
    obtain ⟨j, hj, hterm, -, -⟩ := cancelJob_true_spec m jobId ht
    exact ⟨j, hj, hterm⟩
  · rintro ⟨j, hj, hterm⟩
    exact cancelJob_accepts m jobId j hj hterm
  · intro ht
    obtain ⟨j, hj, -, hlook, horder⟩ := cancelJob_true_spec m jobId ht
    exact ⟨j, hj, hlook, horder⟩
  · exact cancelJob_false_unchanged m jobId

/-- Witness for C9: cancelling the active job of the concrete registry is
accepted; cancelling an unknown id leaves the registry unchanged. -/
theorem c9_cancel_job_witness :
    (cancelJob exMgr "j1").1 = true ∧ (cancelJob exMgr "nope").2 = exMgr :=
  ⟨(c9_cancel_job exMgr "j1").1.mpr
      ⟨{ createJobRecord "j1" [] 0 with status := .syncing }, by decide, by decide⟩,
    (c9_cancel_job exMgr "nope").2.2 (by decide)⟩

/-- C10: when cancelJob returns true it has already set the job status to
cancelled inside the call, so getStatus immediately reports cancelled, and the
status survives any further trace of property completions, repeated cancels,
and the final runJob settlement: it never changes to another value. -/
theorem c10_cancel_permanent (m : SyncManagerState) (jobId : String) (now : Nat)
    (h : (cancelJob m jobId).1 = true) :
    ∃ j, (cancelJob m jobId).2.jobs.lookup jobId = some j ∧
      j.status = .cancelled ∧ j.cancelled = true ∧
      (getStatusById (cancelJob m jobId).2 jobId now).status = .cancelled ∧
      ∀ events : List JobEvent,
        (events.foldl jobStep j).status = .cancelled ∧
        (jobToStatus (events.foldl jobStep j) now).status = .cancelled ∧
        (finalizeJob (events.foldl jobStep j)).status = .cancelled := by
  obtain ⟨j0, -, -, hlook, -⟩ := cancelJob_true_spec m jobId h
  refine ⟨{ j0 with cancelled := true, status := .cancelled }, hlook, rfl, rfl, ?_, ?_⟩
  · unfold getStatusById
    rw [hlook]
    rfl
  · intro events
    obtain ⟨hc, hs⟩ := foldl_jobStep_cancelled events
      ({ j0 with cancelled := true, status := .cancelled }) rfl rfl
    exact ⟨hs, hs, finalizeJob_cancelled_status _ hc⟩

/-- Witness for C10: after cancelling the active job of the concrete
registry, getStatus reports the cancelled status. -/
theorem c10_cancel_permanent_witness :
    (getStatusById (cancelJob exMgr "j1").2 "j1" 5).status = .cancelled := by
  obtain ⟨j, -, -, -, hg, -⟩ := c10_cancel_permanent exMgr "j1" 5 (by decide)
  exact hg

lemma noBatchConflict_nil (x : SearchAnalyticsRow) : noBatchConflict [] x = true := rfl

lemma noBatchConflict_cons (r : SearchAnalyticsRow) (rows : List SearchAnalyticsRow)
    (x : SearchAnalyticsRow) :
    noBatchConflict (r :: rows) x = (!keyConflict x r && noBatchConflict rows x) := by
  simp [noBatchConflict, List.all_cons]

lemma foldl_upsert_decomp (rows : List SearchAnalyticsRow) :
    ∀ table : List SearchAnalyticsRow,
      rows.foldl upsertRow table =
        table.filter (noBatchConflict rows) ++ rows.foldl upsertRow [] := by
  induction rows with
  | nil =>
      intro table
      simp only [List.foldl_nil, List.append_nil]
      rw [List.filter_congr (fun x _ => noBatchConflict_nil x)]
      exact (List.filter_true table).symm
  | cons r rows ih =>
      intro table
      have hsingle : upsertRow [] r = [r] := rfl
      rw [List.foldl_cons, ih (upsertRow table r), List.foldl_cons, hsingle, ih [r]]
      show (table.filter (fun x => !keyConflict x r) ++ [r]).filter (noBatchConflict rows) ++
          rows.foldl upsertRow [] =
        table.filter (noBatchConflict (r :: rows)) ++
          ([r].filter (noBatchConflict rows) ++ rows.foldl upsertRow [])
      rw [List.filter_append, List.filter_filter, List.append_assoc]
      congr 1
      exact List.filter_congr (fun x _ => by
        rw [noBatchConflict_cons, Bool.and_comm])

lemma mem_foldl_upsert (rows : List SearchAnalyticsRow) :
    ∀ (table : List SearchAnalyticsRow) (x : SearchAnalyticsRow),
      x ∈ rows.foldl upsertRow table → x ∈ table ∨ x ∈ rows := by
  induction rows with
  | nil => intro table x hx; exact Or.inl hx
  | cons r rows ih =>
      intro table x hx
      rw [List.foldl_cons] at hx
      rcases ih (upsertRow table r) x hx with hx' | hx'
      · unfold upsertRow at hx'
        rcases List.mem_append.mp hx' with h | h
        · exact Or.inl (List.mem_of_mem_filter h)
        · exact Or.inr (List.mem_cons.mpr (Or.inl (List.mem_singleton.mp h)))
      · exact Or.inr (List.mem_cons_of_mem _ hx')

lemma keyConflict_self (x : SearchAnalyticsRow) : keyConflict x x = nonNullKey x := by
  unfold keyConflict nonNullKey sqlColEq
  cases x.query <;> cases x.page <;> cases x.device <;> cases x.country <;> simp

/-- C3 counterexample: for a record whose nullable key dimensions are all
NULL (as transformRow produces when the dimension list omits them), the
unique index never fires, so writing the one-record batch twice stores two
rows while writing it once stores one: the claim fails for such batches. -/
theorem c3_idempotence_counterexample :
    (insertSearchAnalyticsBatch (insertSearchAnalyticsBatch [] [exNullKeyRow]).1 [exNullKeyRow]).1
      ≠ (insertSearchAnalyticsBatch [] [exNullKeyRow]).1 ∧
    (insertSearchAnalyticsBatch (insertSearchAnalyticsBatch [] [exNullKeyRow]).1 [exNullKeyRow]).1.length = 2 ∧
    (insertSearchAnalyticsBatch [] [exNullKeyRow]).1.length = 1 := by
  refine ⟨?_, by decide, by decide⟩
  decide

/-- C3 (amended): for every batch whose records all carry non-NULL query,
page, device and country values, writing the batch twice through the batch
writer leaves the stored table equal to writing it once — the second write
adds zero rows and changes no stored value, because the insert-or-replace is
keyed on the (date, query, page, device, country) uniqueness tuple. For a
record with a NULL key dimension SQLite treats the NULLs as distinct, the
upsert never replaces, and re-writing duplicates the row. -/
theorem c3_idempotent_upsert_amended (table rows : List SearchAnalyticsRow)
    (hnn : ∀ r ∈ rows, nonNullKey r = true) :
    (insertSearchAnalyticsBatch (insertSearchAnalyticsBatch table rows).1 rows).1
      = (insertSearchAnalyticsBatch table rows).1 := by
  show rows.foldl upsertRow (rows.foldl upsertRow table) = rows.foldl upsertRow table
  rw [foldl_upsert_decomp rows (rows.foldl upsertRow table),
      foldl_upsert_decomp rows table, List.filter_append, List.filter_filter]
  have h1 : table.filter (fun a => noBatchConflict rows a && noBatchConflict rows a)
      = table.filter (noBatchConflict rows) :=
    List.filter_congr (fun x _ => Bool.and_self _)
  have h2 : (rows.foldl upsertRow []).filter (noBatchConflict rows) = [] := by
    rw [List.filter_eq_nil_iff]
    intro x hx
    have hmem : x ∈ rows := (mem_foldl_upsert rows [] x hx).resolve_left (by simp)
    intro hno
    have hself : keyConflict x x = true := by rw [keyConflict_self]; exact hnn x hmem
    have := List.all_eq_true.mp hno x hmem
    rw [hself] at this
    simp at this
  rw [h1, h2, List.append_nil]

/-- Witness for C3 (amended): a one-record batch with fully non-NULL key
dimensions writes idempotently. -/
theorem c3_idempotent_upsert_witness :
    (insertSearchAnalyticsBatch (insertSearchAnalyticsBatch [] [exRowA]).1 [exRowA]).1
      = (insertSearchAnalyticsBatch [] [exRowA]).1 :=
  c3_idempotent_upsert_amended [] [exRowA] (by decide)

lemma sqlTextLt_iff (a b : String) : sqlTextLt a b = true ↔ a < b := by
  simp [sqlTextLt, String.lt_iff]

lemma length_sub_filter_not (p : SearchAnalyticsRow → Bool) (l : List SearchAnalyticsRow) :
    l.length - (l.filter (fun r => !p r)).length = (l.filter p).length := by
  have h := List.length_eq_length_filter_add (l := l) p
  omega

lemma retention_preds_disjoint (p : RetentionPolicy) (cutoffDate : String)
    (r : SearchAnalyticsRow) (h : nonTargetDeletePred p cutoffDate r = true) :
    targetDeletePred p cutoffDate r = false := by
  unfold nonTargetDeletePred notInTargetCountries at h
  unfold targetDeletePred inTargetCountries
  cases hc : r.country with
  | none => simp [hc]
  | some c =>
      rw [hc] at h
      simp only [Bool.and_eq_true] at h
      have hcon : (lowerTargets p).contains (sqlLower c) = false := by
        have h2 := h.2
        cases hx : (lowerTargets p).contains (sqlLower c)
        · rfl
        · rw [hx] at h2; simp at h2
      simp only [Bool.and_eq_false_iff]
      right
      simpa using hcon

lemma filter_nonTarget_after_target (p : RetentionPolicy) (cutoffDate : String)
    (rows : List SearchAnalyticsRow) :
    ((rows.filter (fun r => !targetDeletePred p cutoffDate r)).filter
        (nonTargetDeletePred p cutoffDate)).length
      = (rows.filter (nonTargetDeletePred p cutoffDate)).length := by
  rw [List.filter_filter]
  congr 1
  refine List.filter_congr (fun r _ => ?_)
  by_cases h : nonTargetDeletePred p cutoffDate r = true
  · rw [h, retention_preds_disjoint p cutoffDate r h]
    rfl
  · rw [Bool.not_eq_true] at h
    rw [h]
    rfl

lemma prune_rowsDeleted_eq (rows : List SearchAnalyticsRow) (p : RetentionPolicy)
    (cutoffDate : String) :
    (DataRetention.prune rows p cutoffDate).rowsDeleted
      = (rows.filter (targetDeletePred p cutoffDate)).length
        + (if p.pruneNonTargetZeroClicks
           then (rows.filter (nonTargetDeletePred p cutoffDate)).length else 0) := by
  unfold DataRetention.prune
  simp only []
  rw [length_sub_filter_not]
  congr 1
  by_cases hflag : p.pruneNonTargetZeroClicks
  · rw [if_pos hflag, if_pos hflag, length_sub_filter_not,
      filter_nonTarget_after_target]
  · rw [if_neg hflag, if_neg hflag]
    omega

/-- C5: a prune run deletes only rows that both have zero clicks and are
dated strictly before the recentDays cutoff; a row with positive clicks, or a
row dated at or after the cutoff, is always still stored after the run,
whatever the policy. -/
theorem c5_prune_deletes_only_old_zero_click (rows : List SearchAnalyticsRow)
    (p : RetentionPolicy) (cutoffDate : String) (r : SearchAnalyticsRow)
    (hmem : r ∈ rows) (hdel : r ∉ (DataRetention.prune rows p cutoffDate).rows) :
    r.clicks = 0 ∧ r.date < cutoffDate := by
  unfold DataRetention.prune at hdel
  simp only [] at hdel
  have hone : targetDeletePred p cutoffDate r = true ∨
      nonTargetDeletePred p cutoffDate r = true := by
    by_contra hno
    push_neg at hno
    obtain ⟨h1, h2⟩ := hno
    have h1' : targetDeletePred p cutoffDate r = false := by
      cases hx : targetDeletePred p cutoffDate r
      · rfl
      · exact absurd hx h1
    have h2' : nonTargetDeletePred p cutoffDate r = false := by
      cases hx : nonTargetDeletePred p cutoffDate r
      · rfl
      · exact absurd hx h2
    apply hdel
    have hin1 : r ∈ rows.filter (fun x => !targetDeletePred p cutoffDate x) :=
      List.mem_filter.mpr ⟨hmem, by rw [h1']; rfl⟩
    split
    · exact List.mem_filter.mpr ⟨hin1, by rw [h2']; rfl⟩
    · exact hin1
  rcases hone with h | h
  · unfold targetDeletePred at h
    simp only [Bool.and_eq_true, decide_eq_true_eq] at h
    exact ⟨h.1.1.2, (sqlTextLt_iff _ _).mp h.1.1.1⟩
  · unfold nonTargetDeletePred at h
    simp only [Bool.and_eq_true, decide_eq_true_eq] at h
    exact ⟨h.1.2, (sqlTextLt_iff _ _).mp h.1.1⟩

/-- Witness for C5: the concrete old zero-click target-country row is deleted
by the concrete policy, and C5 certifies it indeed had zero clicks and an
old date. -/
theorem c5_prune_witness : exPrunableRow.clicks = 0 ∧ exPrunableRow.date < "2024-01-01" :=
  c5_prune_deletes_only_old_zero_click [exRowB, exPrunableRow] exPolicy "2024-01-01"
    exPrunableRow (by decide) (by decide)

/-- C6: preview leaves the store unchanged, reports a would-delete count equal
to the number of rows a prune run with the same policy on the same state
deletes (the target low-value count plus, when pruneNonTargetZeroClicks is
enabled, the non-target zero-click count), and reports wouldKeep as total rows
minus wouldDelete. -/
theorem c6_preview_matches_prune (rows : List SearchAnalyticsRow)
    (p : RetentionPolicy) (cutoffDate : String) :
    (DataRetention.preview rows p cutoffDate).1 = rows ∧
    (DataRetention.preview rows p cutoffDate).2.wouldDelete
      = (DataRetention.prune rows p cutoffDate).rowsDeleted ∧
    (DataRetention.preview rows p cutoffDate).2.wouldDelete
      = (DataRetention.preview rows p cutoffDate).2.targetLowValue
        + (if p.pruneNonTargetZeroClicks
           then (DataRetention.preview rows p cutoffDate).2.nonTargetZeroClick else 0) ∧
    (DataRetention.preview rows p cutoffDate).2.wouldKeep
      = (DataRetention.preview rows p cutoffDate).2.totalRows
        - (DataRetention.preview rows p cutoffDate).2.wouldDelete ∧
    (DataRetention.preview rows p cutoffDate).2.totalRows = rows.length := by
  refine ⟨rfl, ?_, rfl, rfl, rfl⟩
  rw [prune_rowsDeleted_eq]
  rfl

lemma getLastSyncDate_fold_spec (l : List SearchAnalyticsRow) :
    ∀ a : String,
      ∃ d, l.foldl maxDateStep (some a) = some d ∧
        (d = a ∨ d ∈ l.map SearchAnalyticsRow.date) ∧ a ≤ d ∧ ∀ r ∈ l, r.date ≤ d := by
  induction l with
  | nil =>
      intro a
      exact ⟨a, rfl, Or.inl rfl, le_refl a, by simp⟩
  | cons r l ih =>
      intro a
      rw [List.foldl_cons]
      by_cases hlt : sqlTextLt a r.date = true
      · have hstep : maxDateStep (some a) r = some r.date := by
          simp [maxDateStep, hlt]
        rw [hstep]
        obtain ⟨d, hfold, hmem, hle, hall⟩ := ih r.date
        refine ⟨d, hfold, ?_, ?_, ?_⟩
        · rcases hmem with rfl | hm
          · exact Or.inr (by simp)
          · rw [List.map_cons]
            exact Or.inr (List.mem_cons_of_mem _ hm)
        · exact le_trans (le_of_lt ((sqlTextLt_iff a r.date).mp hlt)) hle
        · intro x hx
          rcases List.mem_cons.mp hx with rfl | hx
          · exact hle
          · exact hall x hx
      · have hge : r.date ≤ a := by
          have hnot : ¬(a < r.date) := fun hc => hlt ((sqlTextLt_iff a r.date).mpr hc)
          exact not_lt.mp hnot
        have hstep : maxDateStep (some a) r = some a := by
          simp [maxDateStep, hlt]
        rw [hstep]
        obtain ⟨d, hfold, hmem, hle, hall⟩ := ih a
        refine ⟨d, hfold, ?_, hle, ?_⟩
        · rcases hmem with rfl | hm
          · exact Or.inl rfl
          · rw [List.map_cons]
            exact Or.inr (List.mem_cons_of_mem _ hm)
        · intro x hx
          rcases List.mem_cons.mp hx with rfl | hx
          · exact le_trans hge hle
          · exact hall x hx

/-- C8: getLastSyncedDate returns the latest stored date of the property
database it is called on (the schema has no property column: each file
belongs to one property), or NULL when no data is stored; the returned value
is a function of the store contents alone — the propertyId argument does not
influence the SQL query — hence in particular of the pair (propertyId, store)
stated by the claim. -/
theorem c8_get_last_synced_date (db : Database) (siteUrl : String) :
    (getLastSyncDate db siteUrl = none ↔ db.search_analytics = []) ∧
    (∀ d, getLastSyncDate db siteUrl = some d →
      d ∈ db.search_analytics.map SearchAnalyticsRow.date ∧
      ∀ r ∈ db.search_analytics, r.date ≤ d) ∧
    (∀ s₂ : String, getLastSyncDate db siteUrl = getLastSyncDate db s₂) := by
  obtain ⟨rows⟩ := db
  cases rows with
  | nil =>
      refine ⟨by simp [getLastSyncDate], ?_, fun _ => rfl⟩
      intro d hd
      simp [getLastSyncDate] at hd
  | cons r l =>
      have hfold : getLastSyncDate ⟨r :: l⟩ siteUrl = l.foldl maxDateStep (some r.date) := by
        simp [getLastSyncDate, List.foldl_cons, maxDateStep]
      obtain ⟨d, hd, hmem, hle, hall⟩ := getLastSyncDate_fold_spec l r.date
      refine ⟨?_, ?_, fun _ => rfl⟩
      · rw [hfold, hd]
        simp
      · intro d' hd'
        rw [hfold, hd] at hd'
        obtain rfl : d = d' := Option.some.inj hd'
        refine ⟨?_, ?_⟩
        · rcases hmem with rfl | hm
          · simp
          · rw [List.map_cons]
            exact List.mem_cons_of_mem _ hm
        · intro x hx
          rcases List.mem_cons.mp hx with rfl | hx
          · exact hle
          · exact hall x hx

/-- Witness for C8: on the concrete two-row store the lookup returns the
later date, which bounds every stored date. -/
theorem c8_get_last_synced_date_witness :
    getLastSyncDate exDb "https://example.com/" = some "2024-02-03" ∧
    "2024-02-03" ∈ exDb.search_analytics.map SearchAnalyticsRow.date ∧
    ∀ r ∈ exDb.search_analytics, r.date ≤ "2024-02-03" := by
  have h := (c8_get_last_synced_date exDb "https://example.com/").2.1 "2024-02-03" (by decide)
  exact ⟨by decide, h.1, h.2⟩

lemma lookup_eraseJob (jobs : List (String × SyncJob)) (x id : String) :
    (eraseJob jobs x).lookup id = if id = x then none else jobs.lookup id := by
  induction jobs with
  | nil =>
      simp only [eraseJob, List.filter_nil]
      split <;> rfl
  | cons kv rest ih =>
      obtain ⟨k, v⟩ := kv
      simp only [eraseJob, List.filter_cons] at ih ⊢
      by_cases hkx : k = x
      · rw [if_neg (by simp [hkx])]
        rw [ih]
        by_cases hid : id = x
        · rw [if_pos hid, if_pos hid]
        · rw [if_neg hid, if_neg hid, List.lookup_cons]
          have : (id == k) = false := beq_false_of_ne (by rw [hkx]; exact hid)
          simp [this]
      · rw [if_pos (by simpa using hkx)]
        by_cases hid : id = k
        · subst hid
          rw [List.lookup_cons, List.lookup_cons]
          simp only [beq_self_eq_true]
          rw [if_neg hkx]
        · rw [List.lookup_cons, List.lookup_cons]
          have hbeq : (id == k) = false := beq_false_of_ne hid
          simp only [hbeq]
          exact ih

lemma lookup_foldl_eraseJob (dropped : List String) :
    ∀ (jobs : List (String × SyncJob)) (id : String), id ∉ dropped →
      (dropped.foldl eraseJob jobs).lookup id = jobs.lookup id := by
  induction dropped with
  | nil => intro jobs id _; rfl
  | cons x xs ih =>
      intro jobs id hmem
      rw [List.foldl_cons, ih (eraseJob jobs x) id (fun hx => hmem (List.mem_cons_of_mem _ hx)),
        lookup_eraseJob, if_neg (fun h => hmem (List.mem_cons.mpr (Or.inl h)))]

lemma pruneHistoryGo_spec :
    ∀ (order : List String) (jobs : List (String × SyncJob)),
      ∃ dropped : List String,
        order = dropped ++ (pruneHistoryGo jobs order).2 ∧
        (pruneHistoryGo jobs order).1 = dropped.foldl eraseJob jobs ∧
        (∀ id ∈ dropped, ∃ j, jobs.lookup id = some j ∧
          (j.status = .completed ∨ j.status = .failed ∨ j.status = .cancelled)) ∧
        ((pruneHistoryGo jobs order).2.length ≤ MAX_JOB_HISTORY ∨
          ∃ hd tl, (pruneHistoryGo jobs order).2 = hd :: tl ∧
            ∀ j, (pruneHistoryGo jobs order).1.lookup hd = some j →
              ¬(j.status = .completed ∨ j.status = .failed ∨ j.status = .cancelled)) := by
  intro order
  induction order with
  | nil =>
      intro jobs
      exact ⟨[], rfl, rfl, by simp, Or.inl (by simp [pruneHistoryGo, MAX_JOB_HISTORY])⟩
  | cons oldId rest ih =>
      intro jobs
      by_cases hlen : MAX_JOB_HISTORY < (oldId :: rest).length
      · cases hjj : jobs.lookup oldId with
        | none =>
            have hgo : pruneHistoryGo jobs (oldId :: rest) = (jobs, oldId :: rest) := by
              simp only [pruneHistoryGo, if_pos hlen, hjj]
            refine ⟨[], by rw [hgo]; rfl, by rw [hgo]; rfl, by simp, Or.inr ?_⟩
            refine ⟨oldId, rest, by rw [hgo], ?_⟩
            intro j hj
            rw [hgo] at hj
            simp only [hjj] at hj
            exact absurd hj (by simp)
        | some oldJob =>
            by_cases hterm : oldJob.status = .completed ∨ oldJob.status = .failed ∨
                oldJob.status = .cancelled
            · have hgo : pruneHistoryGo jobs (oldId :: rest)
                  = pruneHistoryGo (eraseJob jobs oldId) rest := by
                simp only [pruneHistoryGo, if_pos hlen, hjj, if_pos hterm]
              obtain ⟨dropped, h1, h2, h3, h4⟩ := ih (eraseJob jobs oldId)
              refine ⟨oldId :: dropped, ?_, ?_, ?_, ?_⟩
              · rw [hgo, List.cons_append]
                exact congrArg _ h1
              · rw [hgo, h2, List.foldl_cons]
              · intro id hid
                rcases List.mem_cons.mp hid with rfl | hid
                · exact ⟨oldJob, hjj, hterm⟩
                · obtain ⟨j, hj, hjt⟩ := h3 id hid
                  rw [lookup_eraseJob] at hj
                  by_cases hx : id = oldId
                  · rw [if_pos hx] at hj
                    exact absurd hj (by simp)
                  · rw [if_neg hx] at hj
                    exact ⟨j, hj, hjt⟩
              · rw [hgo]
                exact h4
            · have hgo : pruneHistoryGo jobs (oldId :: rest) = (jobs, oldId :: rest) := by
                simp only [pruneHistoryGo, if_pos hlen, hjj, if_neg hterm]
              refine ⟨[], by rw [hgo]; rfl, by rw [hgo]; rfl, by simp, Or.inr ?_⟩
              refine ⟨oldId, rest, by rw [hgo], ?_⟩
              intro j hj
              rw [hgo] at hj
              simp only [hjj, Option.some.injEq] at hj
              rw [← hj]
              exact hterm
      · have hgo : pruneHistoryGo jobs (oldId :: rest) = (jobs, oldId :: rest) := by
          simp only [pruneHistoryGo, if_neg hlen]
        refine ⟨[], by rw [hgo]; rfl, by rw [hgo]; rfl, by simp, Or.inl ?_⟩
        rw [hgo]
        simpa using Nat.not_lt.mp hlen

/-- C7 counterexample: a registry tracking 52 jobs whose oldest job is still
active while all 51 newer jobs are terminal. The count exceeds the cap of 50
and the excess jobs are terminal, yet pruneHistory evicts nothing, because the
loop stops at the first (oldest) non-terminal entry: more than 50 terminal
jobs stay retained, refuting both the "oldest terminal job is evicted first"
clause and the "cap can be exceeded only while the excess jobs are still
active" clause. -/
theorem c7_history_cap_counterexample :
    MAX_JOB_HISTORY < exBlockedMgr.jobOrder.length ∧
    pruneHistory exBlockedMgr = exBlockedMgr ∧
    MAX_JOB_HISTORY <
      (exBlockedMgr.jobOrder.filter (fun id =>
        match exBlockedMgr.jobs.lookup id with
        | some j => decide (j.status = .completed ∨ j.status = .failed ∨ j.status = .cancelled)
        | none => false)).length := by
  refine ⟨by decide, by decide, by decide⟩

/-- C7 (amended): pruneHistory evicts ids oldest-first from the order list,
every evicted job was terminal (an active job is never evicted and keeps its
registry entry), and eviction continues only while the count exceeds 50 and
the oldest tracked job is terminal — afterwards either at most 50 jobs remain
or the oldest remaining entry is missing or non-terminal, so the cap can stay
exceeded whenever the oldest tracked job is still active, even when the
excess jobs themselves are terminal. -/
theorem c7_history_cap_amended (m : SyncManagerState) :
    ∃ dropped : List String,
      m.jobOrder = dropped ++ (pruneHistory m).jobOrder ∧
      (∀ id ∈ dropped, ∃ j, m.jobs.lookup id = some j ∧
        (j.status = .completed ∨ j.status = .failed ∨ j.status = .cancelled)) ∧
      ((pruneHistory m).jobOrder.length ≤ MAX_JOB_HISTORY ∨
        ∃ hd tl, (pruneHistory m).jobOrder = hd :: tl ∧
          ∀ j, (pruneHistory m).jobs.lookup hd = some j →
            ¬(j.status = .completed ∨ j.status = .failed ∨ j.status = .cancelled)) ∧
      (∀ id j, m.jobs.lookup id = some j →
        ¬(j.status = .completed ∨ j.status = .failed ∨ j.status = .cancelled) →
        (pruneHistory m).jobs.lookup id = some j) := by
  obtain ⟨dropped, h1, h2, h3, h4⟩ := pruneHistoryGo_spec m.jobOrder m.jobs
  refine ⟨dropped, h1, h3, h4, ?_⟩
  intro id j hj hterm
  have hnot : id ∉ dropped := by
    intro hid
    obtain ⟨j', hj', hterm'⟩ := h3 id hid
    rw [hj] at hj'
    exact hterm (Option.some.inj hj' ▸ hterm')
  show (pruneHistoryGo m.jobs m.jobOrder).1.lookup id = some j
  rw [h2, lookup_foldl_eraseJob dropped m.jobs id hnot]
  exact hj

/-- Witness for C7 (amended): on the blocked concrete registry the eviction
list is empty and the active job keeps its entry. -/
theorem c7_history_cap_amended_witness :
    (pruneHistory exMgr).jobs.lookup "j1"
      = some { createJobRecord "j1" [] 0 with status := .syncing } := by
  obtain ⟨dropped, -, -, -, h4⟩ := c7_history_cap_amended exMgr
  exact h4 "j1" _ (by decide) (by decide)

end BetterSearchConsole
